import Mathlib

/-!
Shallow embedding of the three maintenance scripts of the
Soft-Braille-Keyboard repository:

* `src/scripts/duplication.py`      — the duplicate-code scanner,
* `src/scripts/find_combination.py` — the combination finder,
* `src/scripts/compare.py`          — the string-diff tool.

Python strings are modelled by Lean `String` at the parsing level; the
report stage of the duplicate scanner builds its output character by
character, which we model as `List Nat` (Unicode code points), since
Python strings may hold code points (for instance lone surrogates
produced by `"%c" %`) that Lean `Char` cannot.

All string primitives used by the scripts (`str.split`, `str.strip`,
`str.startswith`, `str.lower`, `str.split(sep)`, `str.index`, slicing,
`int(_, 16)`, `"%c" %`) are re-implemented structurally on `List Char`
so that every definition evaluates by kernel reduction.
-/

namespace SBK

/-- Python whitespace for `str.split()` / `str.strip()` (ASCII part:
space, tab, newline, carriage return, vertical tab, form feed). -/
def pyIsSpace (c : Char) : Bool :=
  c = ' ' || c = '\t' || c = '\n' || c = '\r' || c = '\x0b' || c = '\x0c'

/-- Helper for `pySplit`: walk the characters, accumulating the current
token reversed; whitespace ends a token, empty tokens are dropped
(Python `str.split()` with no argument). -/
def splitWsAux : List Char → List Char → List (List Char)
  | [], [] => []
  | [], cur => [cur.reverse]
  | c :: rest, cur =>
    if pyIsSpace c then
      match cur with
      | [] => splitWsAux rest []
      | _ => cur.reverse :: splitWsAux rest []
    else splitWsAux rest (c :: cur)

/-- Models Python `line.split()`: split on runs of whitespace,
discarding empty tokens. -/
def pySplit (s : String) : List String :=
  (splitWsAux s.data []).map String.mk

/-- Models Python `s.strip()`: drop leading and trailing whitespace. -/
def pyStrip (s : String) : String :=
  String.mk (((s.data.dropWhile pyIsSpace).reverse.dropWhile pyIsSpace).reverse)

/-- Models Python `s.startswith(pre)`. -/
def pyStartsWith (s pre : String) : Bool :=
  pre.data.isPrefixOf s.data

/-- ASCII lower-casing of one character (the tokens handled by these
scripts are ASCII, where Python `str.lower` agrees). -/
def pyLowerChar (c : Char) : Char :=
  if 'A' ≤ c ∧ c ≤ 'Z' then Char.ofNat (c.toNat + 32) else c

/-- Models Python `s.lower()` on ASCII data. -/
def pyLower (s : String) : String :=
  String.mk (s.data.map pyLowerChar)

/-- Helper for `pySplitBx`: split a character list at every occurrence
of the two-character separator `\x`, left to right, non-overlapping
(Python `s.split("\\x")`). -/
def splitBx : List Char → List Char → List (List Char)
  | [], cur => [cur.reverse]
  | '\\' :: 'x' :: rest, cur => cur.reverse :: splitBx rest []
  | c :: rest, cur => splitBx rest (c :: cur)

/-- Models Python `s.split("\\x")`. -/
def pySplitBx (s : String) : List String :=
  (splitBx s.data []).map String.mk

/-- Value of a hexadecimal digit character, if it is one. -/
def hexVal (c : Char) : Option Nat :=
  if '0' ≤ c ∧ c ≤ '9' then some (c.toNat - 48)
  else if 'a' ≤ c ∧ c ≤ 'f' then some (c.toNat - 87)
  else if 'A' ≤ c ∧ c ≤ 'F' then some (c.toNat - 55)
  else none

/-- Digits after the `0x` prefix: Python's integer literal grammar
`(["_"] hexdigit)+` — each unit is an optional single underscore
followed by a hex digit. -/
def pyIntHexCore : List Char → Nat → Option Nat
  | [], acc => some acc
  | '_' :: c :: rest, acc =>
    match hexVal c with
    | some v => pyIntHexCore rest (acc * 16 + v)
    | none => none
  | '_' :: [], _ => none
  | c :: rest, acc =>
    match hexVal c with
    | some v => pyIntHexCore rest (acc * 16 + v)
    | none => none

/-- Models Python `int("0x" ++ item, 16)` for the whitespace-free
tokens produced by `split()`: at least one digit unit must follow the
prefix. -/
def pyIntHex (s : String) : Option Nat :=
  match s.data with
  | [] => none
  | l => pyIntHexCore l 0

/-- A Lean string as the list of its code points. -/
def strToPy (s : String) : List Nat :=
  s.data.map Char.toNat

/-- Decimal digit character. -/
def digitChar : Nat → Char
  | 0 => '0' | 1 => '1' | 2 => '2' | 3 => '3' | 4 => '4'
  | 5 => '5' | 6 => '6' | 7 => '7' | 8 => '8' | _ => '9'

/-- Fuelled decimal rendering of a natural number. -/
def natToCharsAux : Nat → Nat → List Char
  | _, 0 => []
  | n, fuel + 1 =>
    if n < 10 then [digitChar n]
    else natToCharsAux (n / 10) fuel ++ [digitChar (n % 10)]

/-- Models Python `str(n)` for a non-negative integer. -/
def natToStr (n : Nat) : String :=
  String.mk (natToCharsAux n (n + 1))

/-- One record of the duplicate scanner's map:
`{"file": file, "character": character}` in `duplication.py`. -/
structure Entry where
  file : String
  character : String
deriving DecidableEq, Repr

/-- The scanner's `result` dictionary: output-code token mapped to the
ordered list of entries appended for it.  Python dictionaries are
modelled as association lists in key-insertion order with unique
keys. -/
abbrev ResultMap := List (String × List Entry)

/-- Does the dictionary contain the key (`key in result.keys()`)? -/
def hasKey (m : ResultMap) (k : String) : Bool :=
  m.any (fun kv => kv.1 = k)

/-- `duplication.py` lines 43-46: create the entry list for a fresh
code, or append to the existing one. -/
def addEntry (m : ResultMap) (code : String) (e : Entry) : ResultMap :=
  if hasKey m code then
    m.map (fun kv => if kv.1 = code then (kv.1, kv.2 ++ [e]) else kv)
  else m ++ [(code, [e])]

/-- Errors that abort a whole invocation: a file that cannot be opened
(`IOError`), a missing include operand (`IndexError` on `line[1]`), or
fuel exhaustion, standing in for the unbounded recursion the Python
code would perform on cyclic includes. -/
inductive ScanErr where
  | missingFile (f : String)
  | indexError
  | fuelOut
deriving DecidableEq, Repr

/-- The file system: a file name resolves to its list of lines, each
already split into whitespace-separated tokens (`line.split()`), or to
`none` when opening the file raises. -/
abbrev FS := String → Option (List (List String))

/-- Split every raw line of a file into its tokens, as both scanners
do with `line = line.split()`. -/
def tokenizeFile (lines : List String) : List (List String) :=
  lines.map pySplit

/-- The per-line loop of `scanFile` in `duplication.py` (lines 35-46),
parameterised by the recursive call used for `include` lines.  Blank
lines and lines whose first token starts with `#` are skipped; a line
whose stripped first token starts with `include` recurses into the
file named by its second token unless recursion is suppressed (and
raises `IndexError` when that token is missing); any other line with
at least three tokens appends `{file, character}` under the code
token. -/
def scanLinesGo (recurse : String → ResultMap → Except ScanErr ResultMap)
    (noRec : Bool) (file : String) :
    List (List String) → ResultMap → Except ScanErr ResultMap
  | [], result => .ok result
  | line :: rest, result =>
    match line with
    | [] => scanLinesGo recurse noRec file rest result
    | t0 :: ts =>
      if pyStartsWith t0 "#" then scanLinesGo recurse noRec file rest result
      else if pyStartsWith (pyStrip t0) "include" then
        if noRec then scanLinesGo recurse noRec file rest result
        else
          match ts with
          | [] => .error .indexError
          | f1 :: _ => do
            let result2 ← recurse (pyStrip f1) result
            scanLinesGo recurse noRec file rest result2
      else
        match ts with
        | t1 :: t2 :: _ =>
          scanLinesGo recurse noRec file rest
            (addEntry result (pyStrip t2) ⟨file, pyStrip t1⟩)
        | _ => scanLinesGo recurse noRec file rest result

/-- `scanFile` of `duplication.py`: open the file (raising when it is
absent) and run the line loop; `noRec` is `len(sys.argv) > 2`, the
recursion-suppressing extra argument.  The fuel bounds the include
depth; the Python original has no such bound (and hence no cycle
guard). -/
def scanFileD (fs : FS) (noRec : Bool) :
    Nat → String → ResultMap → Except ScanErr ResultMap
  | 0, _, _ => .error .fuelOut
  | fuel + 1, file, result =>
    match fs file with
    | none => .error (.missingFile file)
    | some lines => scanLinesGo (scanFileD fs noRec fuel) noRec file lines result

/-- Hex-escape decoding of a character token in the report loop of
`duplication.py` (lines 59-63): if the lower-cased token starts with
`\x`, split the lower-cased token on `\x`, drop the leading piece, and
turn each remaining piece into the code point `int("0x"+item, 16)`
(`"%c"` rejects values of 0x110000 and above); otherwise the token
itself is the symbol.  `none` models the exception caught by the bare
`except`. -/
def decodeSymbol (symbol : String) : Option (List Nat) :=
  let low := pyLower symbol
  if pyStartsWith low "\\x" then
    ((pySplitBx low).drop 1).mapM (fun item =>
      match pyIntHex item with
      | some n => if n < 1114112 then some n else none
      | none => none)
  else some (strToPy symbol)

/-- One printed line of the duplicate scanner: the generic notice
`print ("error")`, or the final `print ("%s\t%s" % (key, symbols))`
with the accumulated symbols string. -/
inductive OutLine where
  | errorNotice
  | reportLine (code : String) (symbols : List Nat)
deriving DecidableEq, Repr

/-- `symbols += " "` guarded by `len(symbols) > 0`. -/
def sepSpace (symbols : List Nat) : List Nat :=
  if symbols.length > 0 then symbols ++ [32] else symbols

/-- One iteration of the entry loop (`duplication.py` lines 54-66):
append the separator, then either extend the symbols string with the
decoded character and the file, or — when decoding raises — leave the
symbols as they stand and print the generic error notice. -/
def entryStep (symbols : List Nat) (e : Entry) : List Nat × List OutLine :=
  let symbols2 := sepSpace symbols
  match decodeSymbol e.character with
  | none => (symbols2, [OutLine.errorNotice])
  | some d => (symbols2 ++ d ++ [32] ++ strToPy e.file, [])

/-- The entry loop: final symbols string and the error notices printed
along the way, in order. -/
def buildSymbols (symbols : List Nat) : List Entry → List Nat × List OutLine
  | [] => (symbols, [])
  | e :: es =>
    let se := entryStep symbols e
    let rest := buildSymbols se.1 es
    (rest.1, se.2 ++ rest.2)

/-- Output produced for one key of the map: nothing unless the key has
more than one entry, otherwise the interleaved error notices followed
by the report line. -/
def keyOutput (kv : String × List Entry) : List OutLine :=
  if kv.2.length > 1 then
    let be := buildSymbols [] kv.2
    be.2 ++ [OutLine.reportLine kv.1 be.1]
  else []

/-- The report loop of `duplication.py` (lines 51-67): iterate the map
in key order and emit each key's output. -/
def reportOutput (result : ResultMap) : List OutLine :=
  (result.map keyOutput).flatten

/-- The whole `duplication.py` invocation: scan from the root into an
empty map, then print the report.  An uncaught error yields no output
at all. -/
def duplicationProgram (fs : FS) (noRec : Bool) (fuel : Nat)
    (root : String) : Except ScanErr (List OutLine) :=
  (scanFileD fs noRec fuel root []).map reportOutput

/-- The per-line loop of `scan` in `find_combination.py` (lines 27-39),
parameterised by the recursive call.  Note that on an `include` line
the recursive result is discarded (`scan(line[1].strip())` is a bare
statement), though an error raised inside it still propagates.  A hit
returns `file + " " + str(lineNumber)`; field 1 is tested before
field 2. -/
def scanFCGo (recurse : String → Except ScanErr String)
    (target file : String) :
    Nat → List (List String) → Except ScanErr String
  | _, [] => .ok ""
  | lineNumber, line :: rest =>
    let n := lineNumber + 1
    match line with
    | [] => scanFCGo recurse target file n rest
    | t0 :: ts =>
      if pyStartsWith t0 "#" then scanFCGo recurse target file n rest
      else if pyStartsWith (pyStrip t0) "include" then
        match ts with
        | [] => .error .indexError
        | f1 :: _ => do
          let _ ← recurse (pyStrip f1)
          scanFCGo recurse target file n rest
      else
        match ts with
        | [] => scanFCGo recurse target file n rest
        | t1 :: ts2 =>
          if pyStrip t1 = target then .ok (file ++ " " ++ natToStr n)
          else
            match ts2 with
            | t2 :: _ =>
              if pyStrip t2 = target then .ok (file ++ " " ++ natToStr n)
              else scanFCGo recurse target file n rest
            | [] => scanFCGo recurse target file n rest

/-- `scan` of `find_combination.py`: open the file and run the line
loop with the line counter starting at 0; return `""` when the loop
finishes without a hit.  `target` is `sys.argv[1]`. -/
def scanFC (fs : FS) (target : String) :
    Nat → String → Except ScanErr String
  | 0, _ => .error .fuelOut
  | fuel + 1, file =>
    match fs file with
    | none => .error (.missingFile file)
    | some lines => scanFCGo (scanFC fs target fuel) target file 0 lines

/-- A file system holding a single file. -/
def oneFileFS (name : String) (lines : List (List String)) : FS :=
  fun n => if n = name then some lines else none

/-- File system of the C1 scenario: the root includes `b.tbl`, and only
`b.tbl` carries a record producing code `61`. -/
def fsNested : FS := fun n =>
  if n = "a.tbl" then some (tokenizeFile ["include b.tbl"])
  else if n = "b.tbl" then some (tokenizeFile ["char a 61"])
  else none

/-- File system whose root's first token merely starts with `include`
(`includez`), naming a file that does not exist. -/
def fsPrefixInclude : FS := fun n =>
  if n = "a.tbl" then some (tokenizeFile ["includez b.tbl x"]) else none

/-- File system of the spec's worked duplicate-scanner example:
`a.tbl` includes `b.tbl` and both carry the record `char \x61 61`. -/
def fsPair : FS := fun n =>
  if n = "a.tbl" then some (tokenizeFile ["include b.tbl", "char \\x61 61"])
  else if n = "b.tbl" then some (tokenizeFile ["char \\x61 61"])
  else none

/-- `fsPair` with the included file removed. -/
def fsPairNoB : FS := fun n =>
  if n = "a.tbl" then some (tokenizeFile ["include b.tbl", "char \\x61 61"])
  else none

/-- Two records for code `61` in one file, the first with a character
token whose hex escape does not decode. -/
def fsBadHex : FS := fun n =>
  if n = "a.tbl" then some (tokenizeFile ["char \\xzz 61", "char a 61"])
  else none

/-- A two-level include chain whose innermost file is missing. -/
def fsDeepMissing : FS := fun n =>
  if n = "a.tbl" then some (tokenizeFile ["include b.tbl"])
  else if n = "b.tbl" then some (tokenizeFile ["include c.tbl"])
  else none

/-- Helper for `pyIndexFrom`: first position (counting from `i`) at
which `needle` occurs as a prefix of the remaining characters. -/
def findSubAux (needle : List Char) : List Char → Nat → Option Nat
  | [], i => if needle = [] then some i else none
  | c :: rest, i =>
    if needle.isPrefixOf (c :: rest) then some i
    else findSubAux needle rest (i + 1)

/-- Models Python `s.index(sub, start)`: the least absolute index at or
after `start` where `sub` occurs, or `none` for the `ValueError`. -/
def pyIndexFrom (s sub : String) (start : Nat) : Option Nat :=
  findSubAux sub.data (s.data.drop start) start

/-- `getName` of `compare.py` (lines 25-29): locate `name="`, move past
the quote, and take the text up to the next quote; `none` models the
uncaught `ValueError` on a malformed line. -/
def getName (s : String) : Option String :=
  match pyIndexFrom s "name=\"" 0 with
  | none => none
  | some st =>
    match pyIndexFrom s "\"" st with
    | none => none
    | some q =>
      let b := q + 1
      match pyIndexFrom s "\"" b with
      | none => none
      | some e => some (String.mk ((s.data.drop b).take (e - b)))

/-- Dictionary lookup for an association list (`d[k]` / `has_key`). -/
def dlookup {α β : Type} [DecidableEq α] : List (α × β) → α → Option β
  | [], _ => none
  | kv :: rest, k => if kv.1 = k then some kv.2 else dlookup rest k

/-- Python dictionary assignment `d[k] = v`: overwrite the existing
binding in place, or append a fresh one. -/
def dinsert {α β : Type} [DecidableEq α] (d : List (α × β)) (k : α)
    (v : β) : List (α × β) :=
  if (dlookup d k).isSome then
    d.map (fun kv => if kv.1 = k then (k, v) else kv)
  else d ++ [(k, v)]

/-- The extraction loop of `compare.py` (lines 38-47): walk the lines
with a 1-based counter and record `getName(line) -> i` for every line
whose stripped form starts with `<string name=`; a malformed such line
raises. -/
def extractDecls : List String → Nat → List (String × Nat) →
    Except Unit (List (String × Nat))
  | [], _, d => .ok d
  | line :: rest, i, d =>
    let j := i + 1
    if pyStartsWith (pyStrip line) "<string name=" then
      match getName line with
      | none => .error ()
      | some n => extractDecls rest j (dinsert d n j)
    else extractDecls rest j d

/-- The `results` dictionary of one report direction (`compare.py`
lines 52-55 and 62-65): for every name of `dA` absent from `dB`,
record `line -> name`. -/
def buildResults (dA dB : List (String × Nat)) : List (Nat × String) :=
  dA.foldl
    (fun r kv =>
      if (dlookup dB kv.1).isSome then r else dinsert r kv.2 kv.1) []

/-- Comparison of result entries by line number, the order produced by
`keys.sort()` on the line-number keys. -/
def lineLE (a b : Nat × String) : Prop := a.1 ≤ b.1

instance : DecidableRel lineLE := fun a b => Nat.decLe a.1 b.1

instance : IsTotal (Nat × String) lineLE :=
  ⟨fun a b => Nat.le_total a.1 b.1⟩

instance : IsTrans (Nat × String) lineLE :=
  ⟨fun _ _ _ => Nat.le_trans⟩

/-- One printed line of `compare.py`: a section header
(`The following strings are only contained in %s.`) or an entry
(`%s on line %d`). -/
inductive CmpLine where
  | header (file : String)
  | entry (name : String) (line : Nat)
deriving DecidableEq, Repr

/-- The line number a printed line is labeled with. -/
def cmpLineNo : CmpLine → Nat
  | .header _ => 0
  | .entry _ l => l

/-- One section of the report: the `results` pairs sorted ascending by
their line-number keys, each printed as `name on line line`. -/
def sectionOut (dA dB : List (String × Nat)) : List CmpLine :=
  (List.insertionSort lineLE (buildResults dA dB)).map
    (fun kv => CmpLine.entry kv.2 kv.1)

/-- The whole `compare.py` invocation: extract both declaration
dictionaries (any `ValueError` aborts before output), then print the
two labeled sections. -/
def compareProgram (f1name f2name : String) (f1 f2 : List String) :
    Except Unit (List CmpLine) := do
  let d1 ← extractDecls f1 0 []
  let d2 ← extractDecls f2 0 []
  .ok ([CmpLine.header f1name] ++ sectionOut d1 d2 ++
    [CmpLine.header f2name] ++ sectionOut d2 d1)

/-- The rendered form of one successfully decoded producer entry inside
the symbols string: decoded character, a space, the source file. -/
def entryRender (e : Entry) : List Nat :=
  (decodeSymbol e.character).getD [] ++ [32] ++ strToPy e.file

/-- Is this printed line the report line of the given code? -/
def isReportFor (c : String) : OutLine → Bool
  | .reportLine c2 _ => c2 = c
  | _ => false

/-- Keys of an association list, in order. -/
def keysOf {α β : Type} (d : List (α × β)) : List α := d.map (·.1)

/-- Values of an association list, in order. -/
def valsOf {α β : Type} (d : List (α × β)) : List β := d.map (·.2)

/-- Every entry of every code of the scanner's map, in order. -/
def allEntries (m : ResultMap) : List Entry := (m.map (·.2)).flatten

/-- A comment line: its first whitespace-separated token starts
with `#`. -/
def isCommentLine (line : List String) : Bool :=
  match line with
  | [] => false
  | t0 :: _ => pyStartsWith t0 "#"

/-- Remove every comment line of a (token-split) file. -/
def filterComments (lines : List (List String)) : List (List String) :=
  lines.filter (fun l => !isCommentLine l)

/-- Remove every comment line of every file of a file system. -/
def fsFilter (fs : FS) : FS := fun n => (fs n).map filterComments

/-- Space-separated concatenation of rendered producer entries: the
symbols string the report loop builds when every entry decodes. -/
def sepJoin : List (List Nat) → List Nat
  | [] => []
  | c :: cs => c ++ (cs.map (fun k => 32 :: k)).flatten

/-- Well-formedness of an extracted declaration dictionary after
processing lines up to counter value `i`: keys unique, line-number
values unique and bounded by `i`. -/
def DictInv (d : List (String × Nat)) (i : Nat) : Prop :=
  (keysOf d).Nodup ∧ (valsOf d).Nodup ∧ ∀ kv ∈ d, kv.2 ≤ i

example : pySplit "char \\x61 61" = ["char", "\\x61", "61"] := rfl

example : pySplit "  a   b " = ["a", "b"] := rfl

example : pySplit "" = [] := rfl

example : pyStrip " ab " = "ab" := rfl

example : pyStartsWith "include b" "include" = true := rfl

example : pyLower "\\X41" = "\\x41" := rfl

example : pySplitBx "\\x41\\x42" = ["", "41", "42"] := rfl

example : pyIntHex "41" = some 65 := rfl

example : pyIntHex "zz" = none := rfl

example : natToStr 12 = "12" := rfl

example : natToStr 1 = "1" := rfl

example : scanFC fsNested "61" 5 "a.tbl" = .ok "" := rfl

example : scanFC fsNested "61" 5 "b.tbl" = .ok "b.tbl 1" := rfl

example : scanFileD fsPrefixInclude false 5 "a.tbl" [] =
    .error (.missingFile "b.tbl") := rfl

example : scanFC fsPrefixInclude "61" 5 "a.tbl" =
    .error (.missingFile "b.tbl") := rfl

example : scanFileD fsPair false 5 "a.tbl" [] =
    .ok [("61", [⟨"b.tbl", "\\x61"⟩, ⟨"a.tbl", "\\x61"⟩])] := rfl

example : duplicationProgram fsPair false 5 "a.tbl" =
    .ok [.reportLine "61" (strToPy "a b.tbl a a.tbl")] := rfl

example : duplicationProgram fsPair true 5 "a.tbl" = .ok [] := rfl

example : duplicationProgram fsPairNoB true 5 "a.tbl" = .ok [] := rfl

example : duplicationProgram fsBadHex false 5 "a.tbl" =
    .ok [.errorNotice, .reportLine "61" (strToPy "a a.tbl")] := rfl

example : duplicationProgram fsDeepMissing false 5 "a.tbl" =
    .error (.missingFile "c.tbl") := rfl

example : scanFC fsDeepMissing "61" 5 "a.tbl" =
    .error (.missingFile "c.tbl") := rfl

example : decodeSymbol "\\x41" = some (strToPy "A") := rfl

example : decodeSymbol "\\x41\\x42" = some (strToPy "AB") := rfl

example : decodeSymbol "\\X41" = some (strToPy "A") := rfl

example : decodeSymbol "\\xzz" = none := rfl

example : getName "  <string name=\"alpha\">x</string>" = some "alpha" := rfl

example : getName "<string name=oops>" = none := rfl

example :
    extractDecls ["<string name=\"a\">1</string>", "junk",
      "<string name=\"b\">2</string>"] 0 [] = .ok [("a", 1), ("b", 3)] := rfl

example :
    compareProgram "f1" "f2"
      ["<string name=\"a\">1</string>", "<string name=\"b\">2</string>"]
      ["<string name=\"b\">9</string>"] =
    .ok [.header "f1", .entry "a" 1, .header "f2"] := rfl

/-- C1: the combination finder is documented to return the first hit in
depth-first traversal order, a hit inside a nested included file
terminating the whole search.  The code instead discards the result of
the recursive `scan` call (line 33 of `find_combination.py` is a bare
statement, not a `return`), so with `a.tbl` = `include b.tbl` and
`b.tbl` = `char a 61` the search for code `61` ends with the empty
result even though scanning `b.tbl` directly finds the record at
line 1. -/
theorem claim_C1_nested_hit_discarded :
    scanFC fsNested "61" 5 "a.tbl" = .ok "" ∧
    scanFC fsNested "61" 5 "b.tbl" = .ok "b.tbl 1" ∧
    scanFC fsNested "61" 5 "b.tbl" = .ok ("b.tbl" ++ " " ++ natToStr 1) :=
  ⟨rfl, rfl, rfl⟩

/-- C2 counterexample: a line whose first field is `includez` — not the
exact keyword `include` — is still treated as an inclusion directive by
both tools: each recurses into `b.tbl` (whose absence aborts the run),
and the duplicate scanner does not record the three-field line. -/
theorem claim_C2_counterexample :
    scanFileD fsPrefixInclude false 5 "a.tbl" [] =
        .error (.missingFile "b.tbl") ∧
    scanFC fsPrefixInclude "61" 5 "a.tbl" =
        .error (.missingFile "b.tbl") ∧
    "includez" ≠ "include" :=
  ⟨rfl, rfl, by decide⟩

/-- C5: the spec's worked example.  With recursion enabled, code `61`
is reported with two producer entries — the included `b.tbl` first,
then `a.tbl` — each rendering `\x61` as `a`.  With the suppressing
flag, only `a.tbl`'s own record is collected, nothing is reported, and
the run succeeds identically even when `b.tbl` does not exist, so
`b.tbl` is never opened. -/
theorem claim_C5_worked_example :
    duplicationProgram fsPair false 5 "a.tbl" =
        .ok [.reportLine "61" (strToPy "a b.tbl a a.tbl")] ∧
    scanFileD fsPair false 5 "a.tbl" [] =
        .ok [("61", [⟨"b.tbl", "\\x61"⟩, ⟨"a.tbl", "\\x61"⟩])] ∧
    duplicationProgram fsPair true 5 "a.tbl" = .ok [] ∧
    duplicationProgram fsPairNoB true 5 "a.tbl" = .ok [] ∧
    scanFileD fsPairNoB true 5 "a.tbl" [] =
        .ok [("61", [⟨"a.tbl", "\\x61"⟩])] :=
  ⟨rfl, rfl, rfl, rfl, rfl⟩

/-- C8: hex-escape decoding maps `\x41` to `A` and `\x41\x42` to `AB`
(components parsed base 16 and concatenated in order), the `\x` prefix
being recognised case-insensitively. -/
theorem claim_C8_hex_decode :
    decodeSymbol "\\x41" = some (strToPy "A") ∧
    decodeSymbol "\\x41\\x42" = some (strToPy "AB") ∧
    decodeSymbol "\\X41" = some (strToPy "A") ∧
    pyIntHex "41" = some 65 ∧ pyIntHex "42" = some 66 :=
  ⟨rfl, rfl, rfl, rfl, rfl⟩

/-- C3 counterexample: two records produce code `61`, but the first has
the undecodable character token `\xzz`, so the report line carries only
one producer entry (plus a separate generic error notice) — not one
entry per contributing record as the claim states. -/
theorem claim_C3_counterexample :
    duplicationProgram fsBadHex false 5 "a.tbl" =
        .ok [.errorNotice, .reportLine "61" (strToPy "a a.tbl")] ∧
    scanFileD fsBadHex false 5 "a.tbl" [] =
        .ok [("61", [⟨"a.tbl", "\\xzz"⟩, ⟨"a.tbl", "a"⟩])] ∧
    decodeSymbol "\\xzz" = none :=
  ⟨rfl, rfl, rfl⟩

/-- C7: opening a missing file raises an uncaught error in both tools —
for the root file at any fuel, and for a file reached through nested
includes (here two levels deep) — and the failed invocation produces no
report: the programs return the error and no output lines. -/
theorem claim_C7_missing_file_fatal :
    (∀ (fs : FS) (noRec : Bool) (fuel : Nat) (file : String)
        (result : ResultMap), fs file = none →
      scanFileD fs noRec (fuel + 1) file result =
        .error (.missingFile file)) ∧
    (∀ (fs : FS) (tgt : String) (fuel : Nat) (file : String),
        fs file = none →
      scanFC fs tgt (fuel + 1) file = .error (.missingFile file)) ∧
    duplicationProgram fsDeepMissing false 5 "a.tbl" =
        .error (.missingFile "c.tbl") ∧
    scanFC fsDeepMissing "61" 5 "a.tbl" = .error (.missingFile "c.tbl") :=
  ⟨fun _ _ _ _ _ h => by simp [scanFileD, h],
   fun _ _ _ _ h => by simp [scanFC, h], rfl, rfl⟩

/-- Witness for C7 at a concrete file system with no files at all. -/
theorem claim_C7_missing_file_fatal_witness :
    ((fun _ => none : FS) "x" = none) ∧
    scanFileD (fun _ => none) false 1 "x" [] = .error (.missingFile "x") :=
  ⟨rfl, claim_C7_missing_file_fatal.1 (fun _ => none) false 0 "x" [] rfl⟩

/-- C10: a non-blank, non-comment, non-include line with exactly two
fields is treated as a record by the combination finder: when its
field 1 equals the target code the finder returns that file and 1-based
line number, although the record format requires three fields. -/
theorem claim_C10_two_field_record :
    ∀ (t0 t1 tgt : String),
      pyStartsWith t0 "#" = false →
      pyStartsWith (pyStrip t0) "include" = false →
      pyStrip t1 = tgt →
      scanFC (oneFileFS "root" [[t0, t1]]) tgt 2 "root" =
        .ok ("root" ++ " " ++ natToStr 1) := by
  intro t0 t1 tgt h0 h1 h2
  simp [scanFC, scanFCGo, oneFileFS, h0, h1, h2]

/-- Witness for C10: the two-field line `char 61` with target `61`
yields `root 1`. -/
theorem claim_C10_two_field_record_witness :
    pyStartsWith "char" "#" = false ∧
    scanFC (oneFileFS "root" [["char", "61"]]) "61" 2 "root" = .ok "root 1" :=
  ⟨rfl, claim_C10_two_field_record "char" "61" "61" rfl rfl rfl⟩

/-- C2 (amended): a non-blank, non-comment line is treated as an
inclusion directive by both tools if and only if its first field
STARTS WITH the literal `include` (the code tests
`line[0].strip().startswith("include")`, not equality).  Directive
treatment means recursing into the stripped second field — observable
here as the attempt to open it — and not recording the line; any other
line with enough fields is recorded (duplicate scanner) or matched
(combination finder). -/
theorem claim_C2_include_startswith :
    (∀ (t0 f tgt : String) (rest : List String),
      pyStartsWith t0 "#" = false →
      pyStartsWith (pyStrip t0) "include" = true →
      pyStrip f ≠ "root" →
      scanFileD (oneFileFS "root" [t0 :: f :: rest]) false 2 "root" [] =
          .error (.missingFile (pyStrip f)) ∧
      scanFC (oneFileFS "root" [t0 :: f :: rest]) tgt 2 "root" =
          .error (.missingFile (pyStrip f))) ∧
    (∀ (t0 t1 t2 tgt : String) (rest : List String),
      pyStartsWith t0 "#" = false →
      pyStartsWith (pyStrip t0) "include" = false →
      scanFileD (oneFileFS "root" [t0 :: t1 :: t2 :: rest]) false 2
          "root" [] = .ok [(pyStrip t2, [⟨"root", pyStrip t1⟩])] ∧
      (pyStrip t1 = tgt →
        scanFC (oneFileFS "root" [t0 :: t1 :: t2 :: rest]) tgt 2 "root" =
          .ok ("root" ++ " " ++ natToStr 1))) := by
  constructor
  · intro t0 f tgt rest h0 h1 h2
    constructor
    · simp [scanFileD, scanLinesGo, oneFileFS, h0, h1, h2]
      rfl
    · simp [scanFC, scanFCGo, oneFileFS, h0, h1, h2]
      rfl
  · intro t0 t1 t2 tgt rest h0 h1
    constructor
    · simp [scanFileD, scanLinesGo, oneFileFS, h0, h1, addEntry, hasKey]
    · intro h2
      simp [scanFC, scanFCGo, oneFileFS, h0, h1, h2]

/-- Witness for C2 (amended): the directive part at first field
`included2` naming a missing file, and the record part at the plain
record `char a 61`. -/
theorem claim_C2_include_startswith_witness :
    (pyStartsWith (pyStrip "included2") "include" = true ∧
      scanFileD (oneFileFS "root" [["included2", "b.tbl"]]) false 2
        "root" [] = .error (.missingFile "b.tbl")) ∧
    (pyStartsWith (pyStrip "char") "include" = false ∧
      scanFileD (oneFileFS "root" [["char", "a", "61"]]) false 2
        "root" [] = .ok [("61", [⟨"root", "a"⟩])]) :=
  ⟨⟨rfl, (claim_C2_include_startswith.1 "included2" "b.tbl" "x" [] rfl rfl
      (by decide)).1⟩,
   ⟨rfl, (claim_C2_include_startswith.2 "char" "a" "61" "x" [] rfl rfl).1⟩⟩

/-- C6: an undecodable character token in the report loop is a
per-entry recoverable error.  First conjunct: in the entry loop, a
failing entry in the middle of the list leaves the symbols string as
the separator-extended accumulator — its character and file are
omitted — emits exactly one generic error notice at that point, and
the remaining entries are processed as usual.  Second conjunct: the
report loop handles each code independently, so the other codes'
output is unaffected. -/
theorem claim_C6_decode_failure_recoverable :
    (∀ (s : List Nat) (es1 : List Entry) (bad : Entry) (es2 : List Entry),
      decodeSymbol bad.character = none →
      buildSymbols s (es1 ++ bad :: es2) =
        ((buildSymbols (sepSpace (buildSymbols s es1).1) es2).1,
         (buildSymbols s es1).2 ++ OutLine.errorNotice ::
           (buildSymbols (sepSpace (buildSymbols s es1).1) es2).2)) ∧
    (∀ (pre : ResultMap) (kv : String × List Entry) (post : ResultMap),
      reportOutput (pre ++ kv :: post) =
        reportOutput pre ++ keyOutput kv ++ reportOutput post) := by
  constructor
  · intro s es1 bad es2 h
    induction es1 generalizing s with
    | nil => simp [buildSymbols, entryStep, h]
    | cons e es1 ih =>
      simp only [List.cons_append, buildSymbols, List.append_eq]
      rw [ih]
      simp [List.append_assoc]
  · intro pre kv post
    simp [reportOutput]

/-- Witness for C6: a concrete three-entry list whose middle entry
carries the undecodable token `\xzz`. -/
theorem claim_C6_decode_failure_recoverable_witness :
    decodeSymbol "\\xzz" = none ∧
    buildSymbols [] ([⟨"f", "a"⟩] ++ ⟨"f", "\\xzz"⟩ :: [⟨"g", "b"⟩]) =
      ((buildSymbols (sepSpace (buildSymbols [] [⟨"f", "a"⟩]).1)
          [⟨"g", "b"⟩]).1,
       (buildSymbols [] [⟨"f", "a"⟩]).2 ++ OutLine.errorNotice ::
         (buildSymbols (sepSpace (buildSymbols [] [⟨"f", "a"⟩]).1)
           [⟨"g", "b"⟩]).2) :=
  ⟨rfl, claim_C6_decode_failure_recoverable.1 [] [⟨"f", "a"⟩]
    ⟨"f", "\\xzz"⟩ [⟨"g", "b"⟩] rfl⟩

/-- The line loop ignores comment lines: running it on the
comment-filtered lines with an equivalent recursive call gives the same
outcome. -/
lemma filterComments_cons (line : List String)
    (rest : List (List String)) :
    filterComments (line :: rest) =
      if isCommentLine line then filterComments rest
      else line :: filterComments rest := by
  cases h : isCommentLine line <;>
    simp [filterComments, List.filter_cons, h]

lemma scanLinesGo_filterComments
    (recurse1 recurse2 : String → ResultMap → Except ScanErr ResultMap)
    (hrec : ∀ f r, recurse1 f r = recurse2 f r)
    (noRec : Bool) (file : String) :
    ∀ (lines : List (List String)) (result : ResultMap),
      scanLinesGo recurse1 noRec file (filterComments lines) result =
      scanLinesGo recurse2 noRec file lines result := by
  intro lines
  induction lines with
  | nil => intro result; rfl
  | cons line rest ih =>
    intro result
    match line with
    | [] => exact ih result
    | t0 :: ts =>
      cases h0 : pyStartsWith t0 "#" with
      | true =>
        simp [filterComments_cons, isCommentLine, scanLinesGo, h0, ih]
      | false =>
        cases h1 : pyStartsWith (pyStrip t0) "include" with
        | false =>
          match ts with
          | [] =>
            simp [filterComments_cons, isCommentLine, scanLinesGo, h0, h1, ih]
          | [t1] =>
            simp [filterComments_cons, isCommentLine, scanLinesGo, h0, h1, ih]
          | t1 :: t2 :: ts2 =>
            simp [filterComments_cons, isCommentLine, scanLinesGo, h0, h1, ih]
        | true =>
          cases noRec with
          | true =>
            simp [filterComments_cons, isCommentLine, scanLinesGo, h0, h1, ih]
          | false =>
            match ts with
            | [] =>
              simp [filterComments_cons, isCommentLine, scanLinesGo, h0, h1]
            | f1 :: ts2 =>
              simp only [filterComments_cons, isCommentLine, h0,
                Bool.false_eq_true, reduceIte, scanLinesGo, h1]
              rw [hrec (pyStrip f1) result]
              cases hr : recurse2 (pyStrip f1) result with
              | error e => rfl
              | ok r2 => exact ih r2

/-- Scanning a comment-filtered file system is the same as scanning the
original. -/
lemma scanFileD_fsFilter (fs : FS) (noRec : Bool) :
    ∀ (fuel : Nat) (file : String) (result : ResultMap),
      scanFileD (fsFilter fs) noRec fuel file result =
      scanFileD fs noRec fuel file result := by
  intro fuel
  induction fuel with
  | zero => intro file result; rfl
  | succ n ih =>
    intro file result
    cases h : fs file with
    | none => simp [scanFileD, fsFilter, h]
    | some lines =>
      simp only [scanFileD, fsFilter, h, Option.map_some']
      exact scanLinesGo_filterComments _ _ (fun f r => ih f r)
        noRec file lines result

/-- C4: the duplicate scanner's output is unchanged when every comment
line — a line whose first whitespace-separated token starts with `#` —
is removed from the scanned table (here from every file of the file
system, which covers in particular the root table). -/
theorem claim_C4_comments_removed :
    ∀ (fs : FS) (noRec : Bool) (fuel : Nat) (root : String),
      duplicationProgram (fsFilter fs) noRec fuel root =
      duplicationProgram fs noRec fuel root := by
  intro fs noRec fuel root
  unfold duplicationProgram
  rw [scanFileD_fsFilter]

lemma except_bind_ok {ε α β : Type} (x : Except ε α) (f : α → Except ε β)
    (b : β) :
    (x >>= f) = Except.ok b ↔ ∃ a, x = Except.ok a ∧ f a = Except.ok b := by
  cases x with
  | error e =>
    simp [show ((Except.error e : Except ε α) >>= f) =
      Except.error e from rfl]
  | ok a =>
    simp [show ((Except.ok a : Except ε α) >>= f) = f a from rfl]

lemma buildSymbols_errs :
    ∀ (es : List Entry) (s : List Nat) (o : OutLine),
      o ∈ (buildSymbols s es).2 → o = .errorNotice := by
  intro es
  induction es with
  | nil => intro s o h; simp [buildSymbols] at h
  | cons e es ih =>
    intro s o h
    simp only [buildSymbols, List.mem_append] at h
    rcases h with h | h
    · unfold entryStep at h
      cases hd : decodeSymbol e.character with
      | none => rw [hd] at h; simp at h; exact h
      | some d => rw [hd] at h; simp at h
    · exact ih _ o h

lemma keysOf_addEntry (m : ResultMap) (c : String) (e : Entry) :
    keysOf (addEntry m c e) =
      if hasKey m c then keysOf m else keysOf m ++ [c] := by
  unfold addEntry
  by_cases h : hasKey m c
  · simp only [h, if_pos]
    have hcomp : ((·.1) ∘ fun kv : String × List Entry =>
        if kv.1 = c then (kv.1, kv.2 ++ [e]) else kv) =
        (·.1 : String × List Entry → String) := by
      funext kv
      by_cases hk : kv.1 = c <;> simp [hk]
    simp only [keysOf, List.map_map, hcomp]
  · simp [h, keysOf]

lemma hasKey_iff (m : ResultMap) (c : String) :
    hasKey m c = true ↔ c ∈ keysOf m := by
  simp only [hasKey, keysOf, List.any_eq_true, decide_eq_true_eq,
    List.mem_map]

lemma keysOf_nodup_addEntry (m : ResultMap) (c : String) (e : Entry)
    (h : (keysOf m).Nodup) : (keysOf (addEntry m c e)).Nodup := by
  rw [keysOf_addEntry]
  cases hk : hasKey m c with
  | true => simpa using h
  | false =>
    simp only [Bool.false_eq_true, reduceIte]
    have hnm : c ∉ keysOf m := by
      intro hc
      rw [← hasKey_iff, hk] at hc
      cases hc
    simp [List.nodup_append, h, hnm]

lemma scanLinesGo_nodup
    (recurse : String → ResultMap → Except ScanErr ResultMap)
    (hrec : ∀ f r r2, recurse f r = .ok r2 →
      (keysOf r).Nodup → (keysOf r2).Nodup)
    (noRec : Bool) (file : String) :
    ∀ (lines : List (List String)) (r r2 : ResultMap),
      scanLinesGo recurse noRec file lines r = .ok r2 →
      (keysOf r).Nodup → (keysOf r2).Nodup := by
  intro lines
  induction lines with
  | nil =>
    intro r r2 h hn
    injection h with h
    rw [← h]
    exact hn
  | cons line rest ih =>
    intro r r2 h hn
    match line with
    | [] => exact ih r r2 h hn
    | t0 :: ts =>
      simp only [scanLinesGo] at h
      by_cases h0 : pyStartsWith t0 "#" = true
      · rw [if_pos h0] at h
        exact ih r r2 h hn
      · rw [if_neg h0] at h
        by_cases h1 : pyStartsWith (pyStrip t0) "include" = true
        · rw [if_pos h1] at h
          cases noRec with
          | true =>
            simp only [reduceIte] at h
            exact ih r r2 h hn
          | false =>
            simp only [Bool.false_eq_true, reduceIte] at h
            match ts with
            | [] => exact absurd h (by simp)
            | f1 :: ts2 =>
              rw [except_bind_ok] at h
              obtain ⟨rmid, hmid, hcont⟩ := h
              exact ih rmid r2 hcont (hrec (pyStrip f1) r rmid hmid hn)
        · rw [if_neg h1] at h
          match ts with
          | [] => exact ih r r2 h hn
          | [t1] => exact ih r r2 h hn
          | t1 :: t2 :: ts2 =>
            exact ih _ r2 h
              (keysOf_nodup_addEntry r (pyStrip t2) ⟨file, pyStrip t1⟩ hn)

lemma scanFileD_nodup (fs : FS) (noRec : Bool) :
    ∀ (fuel : Nat) (file : String) (r r2 : ResultMap),
      scanFileD fs noRec fuel file r = .ok r2 →
      (keysOf r).Nodup → (keysOf r2).Nodup := by
  intro fuel
  induction fuel with
  | zero =>
    intro file r r2 h hn
    exact absurd h (by simp [scanFileD])
  | succ n ih =>
    intro file r r2 h hn
    simp only [scanFileD] at h
    cases hf : fs file with
    | none => rw [hf] at h; exact absurd h (by simp)
    | some lines =>
      rw [hf] at h
      exact scanLinesGo_nodup (scanFileD fs noRec n)
        (fun f r r2 => ih f r r2) noRec file lines r r2 h hn

lemma reportOutput_cons (kv : String × List Entry) (rest : ResultMap) :
    reportOutput (kv :: rest) = keyOutput kv ++ reportOutput rest := by
  simp [reportOutput]

lemma mem_keyOutput (c : String) (s : List Nat)
    (kv : String × List Entry) :
    OutLine.reportLine c s ∈ keyOutput kv ↔
      kv.1 = c ∧ 1 < kv.2.length ∧ s = (buildSymbols [] kv.2).1 := by
  by_cases h : 1 < kv.2.length
  · simp only [keyOutput, h, if_pos, List.mem_append, List.mem_singleton]
    constructor
    · rintro (hin | heq)
      · exact absurd (buildSymbols_errs kv.2 [] _ hin) (by simp)
      · injection heq with e1 e2
        exact ⟨e1.symm, trivial, e2⟩
    · rintro ⟨h1, h2, h3⟩
      right
      rw [h1, h3]
  · simp [keyOutput, h]

lemma mem_reportOutput (c : String) (s : List Nat) :
    ∀ m : ResultMap,
      OutLine.reportLine c s ∈ reportOutput m ↔
        ∃ es, (c, es) ∈ m ∧ 1 < es.length ∧
          s = (buildSymbols [] es).1 := by
  intro m
  induction m with
  | nil => simp [reportOutput]
  | cons kv rest ih =>
    rw [reportOutput_cons, List.mem_append, mem_keyOutput, ih]
    constructor
    · rintro (⟨h1, h2, h3⟩ | ⟨es, hmem, hlen, hs⟩)
      · refine ⟨kv.2, ?_, h2, h3⟩
        rw [← h1]
        exact List.mem_cons_self _ _
      · exact ⟨es, List.mem_cons_of_mem kv hmem, hlen, hs⟩
    · rintro ⟨es, hmem, hlen, hs⟩
      rcases List.mem_cons.mp hmem with heq | hmem2
      · left
        subst heq
        exact ⟨rfl, hlen, hs⟩
      · right
        exact ⟨es, hmem2, hlen, hs⟩

lemma countP_keyOutput (c : String) (kv : String × List Entry) :
    List.countP (isReportFor c) (keyOutput kv) =
      if kv.1 = c ∧ 1 < kv.2.length then 1 else 0 := by
  by_cases h : 1 < kv.2.length
  · simp only [keyOutput, h, if_pos]
    rw [List.countP_append]
    have h0 : List.countP (isReportFor c) (buildSymbols [] kv.2).2 = 0 := by
      rw [List.countP_eq_zero]
      intro o ho
      rw [buildSymbols_errs kv.2 [] o ho]
      simp [isReportFor]
    rw [h0]
    by_cases hc : kv.1 = c <;>
      simp [List.countP_cons, isReportFor, hc, h]
  · simp [keyOutput, h]

lemma countP_reportOutput_le_one (c : String) :
    ∀ m : ResultMap, (keysOf m).Nodup →
      List.countP (isReportFor c) (reportOutput m) ≤ 1 := by
  intro m
  induction m with
  | nil => intro h; simp [reportOutput]
  | cons kv rest ih =>
    intro h
    simp only [keysOf, List.map_cons, List.nodup_cons] at h
    obtain ⟨hk, hrest⟩ := h
    rw [reportOutput_cons, List.countP_append, countP_keyOutput]
    by_cases hc : kv.1 = c
    · have h0 : List.countP (isReportFor c) (reportOutput rest) = 0 := by
        rw [List.countP_eq_zero]
        intro o ho hp
        match o, hp with
        | .reportLine c2 s, hp =>
          have hc2 : c2 = c := by simpa [isReportFor] using hp
          obtain ⟨es, hmem, _, _⟩ := (mem_reportOutput c2 s rest).mp ho
          apply hk
          rw [hc, ← hc2]
          exact List.mem_map.mpr ⟨(c2, es), hmem, rfl⟩
      rw [h0]
      by_cases hl : 1 < kv.2.length <;> simp [hc, hl]
    · simpa [hc] using ih hrest

lemma entryRender_ne_nil (e : Entry) : entryRender e ≠ [] := by
  unfold entryRender
  simp

lemma foldl_sepSpace_ne (chunks : List (List Nat)) :
    ∀ acc : List Nat, acc ≠ [] →
      List.foldl (fun a c => sepSpace a ++ c) acc chunks =
        acc ++ (chunks.map (fun c => 32 :: c)).flatten := by
  induction chunks with
  | nil => intro acc h; simp
  | cons c cs ih =>
    intro acc h
    have hs : sepSpace acc = acc ++ [32] := by
      unfold sepSpace
      rw [if_pos]
      exact List.length_pos.mpr h
    simp only [List.foldl_cons, hs]
    rw [ih (acc ++ [32] ++ c) (by simp)]
    simp [List.append_assoc]

lemma buildSymbols_all_ok :
    ∀ (es : List Entry) (s : List Nat),
      (∀ e ∈ es, (decodeSymbol e.character).isSome) →
      buildSymbols s es =
        (List.foldl (fun a c => sepSpace a ++ c) s (es.map entryRender),
          []) := by
  intro es
  induction es with
  | nil => intro s h; rfl
  | cons e es ih =>
    intro s h
    have he : (decodeSymbol e.character).isSome := h e (by simp)
    obtain ⟨d, hd⟩ := Option.isSome_iff_exists.mp he
    have hstep : entryStep s e = (sepSpace s ++ entryRender e, []) := by
      unfold entryStep entryRender
      rw [hd]
      simp [List.append_assoc]
    simp only [buildSymbols, hstep, List.map_cons, List.foldl_cons]
    rw [ih (sepSpace s ++ entryRender e)
      (fun e2 h2 => h e2 (by simp [h2]))]
    simp

lemma buildSymbols_sepJoin (es : List Entry)
    (hne : es ≠ [])
    (hall : ∀ e ∈ es, (decodeSymbol e.character).isSome) :
    (buildSymbols [] es).1 = sepJoin (es.map entryRender) := by
  match es, hne with
  | e :: es2, _ =>
    rw [buildSymbols_all_ok (e :: es2) [] hall]
    simp only [List.map_cons, List.foldl_cons]
    have h1 : sepSpace [] ++ entryRender e = entryRender e := by
      simp [sepSpace]
    rw [h1, foldl_sepSpace_ne (List.map entryRender es2) (entryRender e)
      (entryRender_ne_nil e)]
    rfl

lemma mem_allEntries {m : ResultMap} {code : String} {es : List Entry}
    (h : (code, es) ∈ m) {e : Entry} (he : e ∈ es) :
    e ∈ allEntries m := by
  unfold allEntries
  rw [List.mem_flatten]
  exact ⟨es, List.mem_map.mpr ⟨(code, es), h, rfl⟩, he⟩

/-- C3 (amended): over the scanned map, a code is reported exactly when
more than one record produced it, on at most one report line; and —
provided every collected character token decodes — that line's symbols
string is the space-separated sequence of one decoded
character-and-file entry per contributing record, in the order the
records were discovered.  (A record whose token fails to decode is
replaced by a generic error notice instead; see the counterexample.) -/
theorem claim_C3_report_amended :
    ∀ (fs : FS) (noRec : Bool) (fuel : Nat) (root : String)
      (result : ResultMap),
      scanFileD fs noRec fuel root [] = .ok result →
      duplicationProgram fs noRec fuel root = .ok (reportOutput result) ∧
      (∀ code : String,
        ((∃ s, OutLine.reportLine code s ∈ reportOutput result) ↔
          ∃ es, (code, es) ∈ result ∧ 1 < es.length) ∧
        List.countP (isReportFor code) (reportOutput result) ≤ 1) ∧
      ((∀ e ∈ allEntries result, (decodeSymbol e.character).isSome) →
        ∀ (code : String) (es : List Entry),
          (code, es) ∈ result → 1 < es.length →
          OutLine.reportLine code (sepJoin (es.map entryRender)) ∈
            reportOutput result) := by
  intro fs noRec fuel root result hscan
  have hnodup : (keysOf result).Nodup :=
    scanFileD_nodup fs noRec fuel root [] result hscan (by simp [keysOf])
  refine ⟨?_, ?_, ?_⟩
  · unfold duplicationProgram
    rw [hscan]
    rfl
  · intro code
    refine ⟨?_, countP_reportOutput_le_one code result hnodup⟩
    constructor
    · rintro ⟨s, hs⟩
      obtain ⟨es, hmem, hlen, _⟩ := (mem_reportOutput code s result).mp hs
      exact ⟨es, hmem, hlen⟩
    · rintro ⟨es, hmem, hlen⟩
      exact ⟨(buildSymbols [] es).1,
        (mem_reportOutput code _ result).mpr ⟨es, hmem, hlen, rfl⟩⟩
  · intro hdec code es hmem hlen
    have hall : ∀ e ∈ es, (decodeSymbol e.character).isSome :=
      fun e he => hdec e (mem_allEntries hmem he)
    have hne : es ≠ [] := by
      intro hnil
      rw [hnil] at hlen
      exact absurd hlen (by simp)
    rw [← buildSymbols_sepJoin es hne hall]
    exact (mem_reportOutput code _ result).mpr ⟨es, hmem, hlen, rfl⟩

/-- Witness for C3 (amended) at the spec's worked two-file example. -/
theorem claim_C3_report_amended_witness :
    scanFileD fsPair false 5 "a.tbl" [] =
        .ok [("61", [⟨"b.tbl", "\\x61"⟩, ⟨"a.tbl", "\\x61"⟩])] ∧
    (duplicationProgram fsPair false 5 "a.tbl" =
        .ok (reportOutput
          [("61", [⟨"b.tbl", "\\x61"⟩, ⟨"a.tbl", "\\x61"⟩])]) ∧
      (∀ code : String,
        ((∃ s, OutLine.reportLine code s ∈ reportOutput
            [("61", [⟨"b.tbl", "\\x61"⟩, ⟨"a.tbl", "\\x61"⟩])]) ↔
          ∃ es, (code, es) ∈
              [("61", [Entry.mk "b.tbl" "\\x61",
                Entry.mk "a.tbl" "\\x61"])] ∧ 1 < es.length) ∧
        List.countP (isReportFor code) (reportOutput
          [("61", [⟨"b.tbl", "\\x61"⟩, ⟨"a.tbl", "\\x61"⟩])]) ≤ 1) ∧
      ((∀ e ∈ allEntries
          [("61", [Entry.mk "b.tbl" "\\x61", Entry.mk "a.tbl" "\\x61"])],
          (decodeSymbol e.character).isSome) →
        ∀ (code : String) (es : List Entry),
          (code, es) ∈
            [("61", [Entry.mk "b.tbl" "\\x61",
              Entry.mk "a.tbl" "\\x61"])] → 1 < es.length →
          OutLine.reportLine code (sepJoin (es.map entryRender)) ∈
            reportOutput
              [("61", [⟨"b.tbl", "\\x61"⟩, ⟨"a.tbl", "\\x61"⟩])])) :=
  ⟨rfl, claim_C3_report_amended fsPair false 5 "a.tbl"
    [("61", [⟨"b.tbl", "\\x61"⟩, ⟨"a.tbl", "\\x61"⟩])] rfl⟩

lemma dlookup_eq_none {α β : Type} [DecidableEq α] :
    ∀ (d : List (α × β)) (k : α), dlookup d k = none ↔ k ∉ keysOf d := by
  intro d k
  induction d with
  | nil => simp [dlookup, keysOf]
  | cons kv rest ih =>
    simp only [dlookup, keysOf, List.map_cons, List.mem_cons]
    by_cases h : kv.1 = k
    · simp [h]
    · have h2 : ¬(k = kv.1) := fun hh => h hh.symm
      simp [h, h2]
      rw [ih]
      simp [keysOf]

lemma dlookup_eq_some_of_mem {α β : Type} [DecidableEq α] :
    ∀ (d : List (α × β)), (keysOf d).Nodup →
      ∀ (k : α) (v : β), (k, v) ∈ d → dlookup d k = some v := by
  intro d
  induction d with
  | nil => intro _ k v h; simp at h
  | cons kv rest ih =>
    intro hnd k v h
    simp only [keysOf, List.map_cons, List.nodup_cons] at hnd
    rcases List.mem_cons.mp h with heq | hmem
    · rw [← heq]
      simp [dlookup]
    · have hne : kv.1 ≠ k := by
        intro he
        apply hnd.1
        rw [he]
        exact List.mem_map.mpr ⟨(k, v), hmem, rfl⟩
      simp only [dlookup, hne, reduceIte]
      exact ih hnd.2 k v hmem

lemma mem_of_dlookup_eq_some {α β : Type} [DecidableEq α] :
    ∀ (d : List (α × β)) (k : α) (v : β),
      dlookup d k = some v → (k, v) ∈ d := by
  intro d
  induction d with
  | nil => intro k v h; simp [dlookup] at h
  | cons kv rest ih =>
    intro k v h
    simp only [dlookup] at h
    by_cases he : kv.1 = k
    · rw [if_pos he] at h
      injection h with h
      have hkv : (k, v) = kv := by rw [← he, ← h]
      rw [hkv]
      exact List.mem_cons_self _ _
    · rw [if_neg he] at h
      exact List.mem_cons_of_mem kv (ih k v h)

lemma isSome_dlookup_of_mem {α β : Type} [DecidableEq α] :
    ∀ (d : List (α × β)) (kv : α × β), kv ∈ d →
      (dlookup d kv.1).isSome := by
  intro d
  induction d with
  | nil => intro kv h; simp at h
  | cons kv0 rest ih =>
    intro kv h
    simp only [dlookup]
    by_cases he : kv0.1 = kv.1
    · simp [he]
    · rw [if_neg he]
      rcases List.mem_cons.mp h with heq | hmem
      · rw [heq] at he; simp at he
      · exact ih kv hmem

lemma dinsert_not_mem {α β : Type} [DecidableEq α] {d : List (α × β)}
    {k : α} (h : k ∉ keysOf d) (v : β) :
    dinsert d k v = d ++ [(k, v)] := by
  unfold dinsert
  rw [if_neg]
  rw [(dlookup_eq_none d k).mpr h]
  simp

lemma map_overwrite_id {α β : Type} [DecidableEq α] {n : α} (w : β) :
    ∀ (d : List (α × β)), n ∉ keysOf d →
      d.map (fun kv => if kv.1 = n then (n, w) else kv) = d := by
  intro d
  induction d with
  | nil => intro _; rfl
  | cons kv rest ih =>
    intro h
    simp only [keysOf, List.map_cons, List.mem_cons] at h
    push_neg at h
    have hne : kv.1 ≠ n := fun he => h.1 he.symm
    simp only [List.map_cons, hne, reduceIte]
    rw [ih (by simpa [keysOf] using h.2)]

lemma mem_valsOf_map_overwrite {α β : Type} [DecidableEq α] {n : α}
    {w : β} {d : List (α × β)} {v : β}
    (h : v ∈ valsOf (d.map (fun kv => if kv.1 = n then (n, w) else kv))) :
    v ∈ valsOf d ∨ v = w := by
  simp only [valsOf, List.map_map, List.mem_map, Function.comp] at h
  obtain ⟨kv, hmem, heq⟩ := h
  by_cases he : kv.1 = n
  · rw [he] at heq
    simp at heq
    right
    exact heq.symm
  · rw [if_neg he] at heq
    left
    exact List.mem_map.mpr ⟨kv, hmem, heq⟩

lemma dictInv_mono {d : List (String × Nat)} {i j : Nat}
    (h : DictInv d i) (hij : i ≤ j) : DictInv d j :=
  ⟨h.1, h.2.1, fun kv hm => Nat.le_trans (h.2.2 kv hm) hij⟩

lemma vals_nodup_overwrite {n : String} {w : Nat} :
    ∀ (d : List (String × Nat)), (keysOf d).Nodup → (valsOf d).Nodup →
      (∀ kv ∈ d, kv.2 < w) →
      (valsOf (d.map (fun kv =>
        if kv.1 = n then (n, w) else kv))).Nodup := by
  intro d
  induction d with
  | nil => intro _ _ _; simp [valsOf]
  | cons kv0 rest ih =>
    intro hk hv hb
    simp only [keysOf, List.map_cons, List.nodup_cons] at hk
    simp only [valsOf, List.map_cons, List.nodup_cons] at hv
    by_cases he : kv0.1 = n
    · simp only [List.map_cons, he, reduceIte]
      have hn : n ∉ keysOf rest := by
        rw [← he]
        exact hk.1
      rw [map_overwrite_id w rest hn]
      simp only [valsOf, List.map_cons, List.nodup_cons]
      refine ⟨?_, hv.2⟩
      intro hwmem
      obtain ⟨kv, hkv, hkv2⟩ := List.mem_map.mp hwmem
      have hlt := hb kv (List.mem_cons_of_mem kv0 hkv)
      rw [hkv2] at hlt
      exact Nat.lt_irrefl w hlt
    · simp only [List.map_cons, he, reduceIte]
      simp only [valsOf, List.map_cons, List.nodup_cons]
      refine ⟨?_, ?_⟩
      · intro hmem
        rcases mem_valsOf_map_overwrite
            (show kv0.2 ∈ valsOf (rest.map fun kv =>
              if kv.1 = n then (n, w) else kv) from hmem) with hin | heqw
        · exact hv.1 hin
        · have hlt := hb kv0 (List.mem_cons_self _ _)
          rw [heqw] at hlt
          exact Nat.lt_irrefl w hlt
      · exact ih hk.2 hv.2 (fun kv hm => hb kv (List.mem_cons_of_mem kv0 hm))

lemma keysOf_append {α β : Type} (d1 d2 : List (α × β)) :
    keysOf (d1 ++ d2) = keysOf d1 ++ keysOf d2 := by
  simp [keysOf]

lemma dictInv_dinsert {acc : List (String × Nat)} {i : Nat} {n : String}
    (h : DictInv acc i) : DictInv (dinsert acc n (i + 1)) (i + 1) := by
  obtain ⟨hk, hv, hb⟩ := h
  by_cases hmem : n ∈ keysOf acc
  · -- overwrite in place
    have hsome : (dlookup acc n).isSome := by
      rcases List.mem_map.mp hmem with ⟨kv, hkv, heq⟩
      have := isSome_dlookup_of_mem acc kv hkv
      rw [heq] at this
      exact this
    unfold dinsert
    rw [if_pos hsome]
    refine ⟨?_, ?_, ?_⟩
    · have hcomp : ((·.1) ∘ fun kv : String × Nat =>
          if kv.1 = n then (n, i + 1) else kv) =
          (·.1 : String × Nat → String) := by
        funext kv
        by_cases hkk : kv.1 = n <;> simp [hkk]
      simpa only [keysOf, List.map_map, hcomp] using hk
    · exact vals_nodup_overwrite acc hk hv
        (fun kv hm => Nat.lt_succ_of_le (hb kv hm))
    · intro kv hm
      rcases List.mem_map.mp hm with ⟨kv0, hkv0, heq⟩
      by_cases hkk : kv0.1 = n
      · rw [hkk] at heq
        simp at heq
        rw [← heq]
      · rw [if_neg hkk] at heq
        rw [← heq]
        exact Nat.le_succ_of_le (hb kv0 hkv0)
  · rw [dinsert_not_mem hmem]
    refine ⟨?_, ?_, ?_⟩
    · rw [keysOf_append]
      simp [List.nodup_append, hk, hmem, keysOf]
      refine ⟨hk, ?_⟩
      intro x hx
      exact hmem (List.mem_map.mpr ⟨(n, x), hx, rfl⟩)
    · have hv2 : valsOf (acc ++ [(n, i + 1)]) =
          valsOf acc ++ [i + 1] := by simp [valsOf]
      rw [hv2]
      have hfresh : (i + 1) ∉ valsOf acc := by
        intro hin
        rcases List.mem_map.mp hin with ⟨kv, hkv, heq⟩
        have := hb kv hkv
        rw [heq] at this
        omega
      simp [List.nodup_append, hv, hfresh]
    · intro kv hm
      rcases List.mem_append.mp hm with hin | hin
      · exact Nat.le_succ_of_le (hb kv hin)
      · simp at hin
        rw [hin]

lemma extractDecls_inv :
    ∀ (lines : List String) (i : Nat) (acc d : List (String × Nat)),
      extractDecls lines i acc = .ok d → DictInv acc i →
      DictInv d (i + lines.length) := by
  intro lines
  induction lines with
  | nil =>
    intro i acc d h hi
    injection h with h
    rw [← h]
    simpa using hi
  | cons line rest ih =>
    intro i acc d h hi
    simp only [extractDecls] at h
    have harith : i + (rest.length + 1) = (i + 1) + rest.length := by omega
    rw [List.length_cons, harith]
    by_cases hs : pyStartsWith (pyStrip line) "<string name=" = true
    · rw [if_pos hs] at h
      cases hg : getName line with
      | none =>
        rw [hg] at h
        exact absurd h (by simp)
      | some n =>
        rw [hg] at h
        exact ih (i + 1) (dinsert acc n (i + 1)) d h (dictInv_dinsert hi)
    · rw [if_neg hs] at h
      exact ih (i + 1) acc d h (dictInv_mono hi (Nat.le_succ i))

lemma buildResults_go (dB : List (String × Nat)) :
    ∀ (dA : List (String × Nat)) (r : List (Nat × String)),
      (valsOf dA).Nodup →
      (∀ kv ∈ dA, kv.2 ∉ keysOf r) →
      dA.foldl (fun r kv => if (dlookup dB kv.1).isSome then r
          else dinsert r kv.2 kv.1) r =
        r ++ (dA.filter (fun kv => (dlookup dB kv.1).isNone)).map
          (fun kv => (kv.2, kv.1)) := by
  intro dA
  induction dA with
  | nil => intro r _ _; simp
  | cons kv dA ih =>
    intro r h1 h2
    have hv : kv.2 ∉ valsOf dA ∧ (valsOf dA).Nodup := by
      simpa [valsOf, List.nodup_cons] using h1
    simp only [List.foldl_cons, List.filter_cons]
    cases hB : dlookup dB kv.1 with
    | some v =>
      rw [if_pos (by simp [hB])]
      simp only [Option.isNone_some, Bool.false_eq_true, reduceIte]
      exact ih r hv.2 (fun kv2 h2m => h2 kv2 (List.mem_cons_of_mem kv h2m))
    | none =>
      rw [if_neg (by simp [hB])]
      simp only [Option.isNone_none, reduceIte]
      have hfresh : kv.2 ∉ keysOf r := h2 kv (List.mem_cons_self _ _)
      rw [dinsert_not_mem hfresh]
      rw [ih (r ++ [(kv.2, kv.1)]) hv.2 ?_]
      · simp [List.append_assoc]
      · intro kv2 h2m
        rw [keysOf_append]
        simp only [List.mem_append]
        rintro (hin | hin)
        · exact h2 kv2 (List.mem_cons_of_mem kv h2m) hin
        · simp only [keysOf, List.map_cons, List.map_nil,
            List.mem_singleton] at hin
          apply hv.1
          rw [← hin]
          exact List.mem_map.mpr ⟨kv2, h2m, rfl⟩

lemma mem_buildResults {dA dB : List (String × Nat)}
    (hknd : (keysOf dA).Nodup) (hvnd : (valsOf dA).Nodup)
    (l : Nat) (n : String) :
    (l, n) ∈ buildResults dA dB ↔
      dlookup dA n = some l ∧ dlookup dB n = none := by
  unfold buildResults
  rw [buildResults_go dB dA [] hvnd (by simp [keysOf])]
  simp only [List.nil_append, List.mem_map, List.mem_filter]
  constructor
  · rintro ⟨kv, ⟨hmem, hnone⟩, heq⟩
    have h1 : kv.2 = l := congrArg Prod.fst heq
    have h2 : kv.1 = n := congrArg Prod.snd heq
    constructor
    · rw [← h2, ← h1]
      exact dlookup_eq_some_of_mem dA hknd kv.1 kv.2 (by
        have : (kv.1, kv.2) = kv := rfl
        rw [this]
        exact hmem)
    · rw [← h2]
      simpa [Option.isNone_iff_eq_none] using hnone
  · rintro ⟨hA, hB⟩
    refine ⟨(n, l), ⟨mem_of_dlookup_eq_some dA n l hA, ?_⟩, rfl⟩
    simp [hB]

lemma mem_sectionOut {dA dB : List (String × Nat)}
    (hknd : (keysOf dA).Nodup) (hvnd : (valsOf dA).Nodup)
    (n : String) (l : Nat) :
    CmpLine.entry n l ∈ sectionOut dA dB ↔
      dlookup dA n = some l ∧ dlookup dB n = none := by
  unfold sectionOut
  rw [List.mem_map]
  constructor
  · rintro ⟨kv, hmem, heq⟩
    injection heq with e1 e2
    rw [List.mem_insertionSort lineLE] at hmem
    rw [← e1, ← e2]
    have hkv : (kv.1, kv.2) = kv := rfl
    rw [← hkv] at hmem
    exact (mem_buildResults hknd hvnd kv.1 kv.2).mp hmem
  · rintro ⟨hA, hB⟩
    exact ⟨(l, n), (List.mem_insertionSort lineLE).mpr
      ((mem_buildResults hknd hvnd l n).mpr ⟨hA, hB⟩), rfl⟩

lemma sectionOut_pairwise (dA dB : List (String × Nat)) :
    List.Pairwise (fun a b => cmpLineNo a ≤ cmpLineNo b)
      (sectionOut dA dB) := by
  unfold sectionOut
  rw [List.pairwise_map]
  exact List.sorted_insertionSort lineLE (buildResults dA dB)

lemma buildResults_eq_nil {dA dB : List (String × Nat)}
    (hvnd : (valsOf dA).Nodup)
    (h : ∀ n, (dlookup dA n).isSome ↔ (dlookup dB n).isSome) :
    buildResults dA dB = [] := by
  unfold buildResults
  rw [buildResults_go dB dA [] hvnd (by simp [keysOf])]
  simp only [List.nil_append]
  have hfil : ∀ kv ∈ dA, ¬((dlookup dB kv.1).isNone = true) := by
    intro kv hm hnone
    have hA : (dlookup dA kv.1).isSome := isSome_dlookup_of_mem dA kv hm
    have hB := (h kv.1).mp hA
    rw [Option.isNone_iff_eq_none] at hnone
    rw [hnone] at hB
    simp at hB
  rw [List.filter_eq_nil_iff.mpr hfil]
  rfl

lemma sectionOut_eq_nil {dA dB : List (String × Nat)}
    (hvnd : (valsOf dA).Nodup)
    (h : ∀ n, (dlookup dA n).isSome ↔ (dlookup dB n).isSome) :
    sectionOut dA dB = [] := by
  unfold sectionOut
  rw [buildResults_eq_nil hvnd h]
  rfl

lemma compareProgram_eq {f1name f2name : String} {f1 f2 : List String}
    {d1 d2 : List (String × Nat)}
    (h1 : extractDecls f1 0 [] = .ok d1)
    (h2 : extractDecls f2 0 [] = .ok d2) :
    compareProgram f1name f2name f1 f2 =
      .ok ([CmpLine.header f1name] ++ sectionOut d1 d2 ++
        [CmpLine.header f2name] ++ sectionOut d2 d1) := by
  unfold compareProgram
  rw [h1, h2]
  rfl

/-- C9: the string-diff tool prints two sections: first every name
declared in file 1 but absent from file 2, labeled with file 1's
1-based line number for it and sorted ascending by those line numbers,
then the names of file 2 absent from file 1, labeled and sorted by
file 2's line numbers; when the two files declare the same set of
names, both sections are empty.  (A name declared several times is
labeled with its last declaration line, the dictionary value the code
keeps.) -/
theorem claim_C9_string_diff :
    ∀ (f1name f2name : String) (f1 f2 : List String)
      (d1 d2 : List (String × Nat)),
      extractDecls f1 0 [] = .ok d1 →
      extractDecls f2 0 [] = .ok d2 →
      compareProgram f1name f2name f1 f2 =
        .ok ([CmpLine.header f1name] ++ sectionOut d1 d2 ++
          [CmpLine.header f2name] ++ sectionOut d2 d1) ∧
      (∀ (n : String) (l : Nat),
        CmpLine.entry n l ∈ sectionOut d1 d2 ↔
          dlookup d1 n = some l ∧ dlookup d2 n = none) ∧
      (∀ (n : String) (l : Nat),
        CmpLine.entry n l ∈ sectionOut d2 d1 ↔
          dlookup d2 n = some l ∧ dlookup d1 n = none) ∧
      List.Pairwise (fun a b => cmpLineNo a ≤ cmpLineNo b)
        (sectionOut d1 d2) ∧
      List.Pairwise (fun a b => cmpLineNo a ≤ cmpLineNo b)
        (sectionOut d2 d1) ∧
      ((∀ n, (dlookup d1 n).isSome ↔ (dlookup d2 n).isSome) →
        sectionOut d1 d2 = [] ∧ sectionOut d2 d1 = []) := by
  intro f1name f2name f1 f2 d1 d2 h1 h2
  have hinv1 : DictInv d1 (0 + f1.length) :=
    extractDecls_inv f1 0 [] d1 h1 ⟨by simp [keysOf], by simp [valsOf],
      by simp⟩
  have hinv2 : DictInv d2 (0 + f2.length) :=
    extractDecls_inv f2 0 [] d2 h2 ⟨by simp [keysOf], by simp [valsOf],
      by simp⟩
  refine ⟨compareProgram_eq h1 h2, ?_, ?_, sectionOut_pairwise d1 d2,
    sectionOut_pairwise d2 d1, ?_⟩
  · intro n l
    exact mem_sectionOut hinv1.1 hinv1.2.1 n l
  · intro n l
    exact mem_sectionOut hinv2.1 hinv2.2.1 n l
  · intro hsame
    exact ⟨sectionOut_eq_nil hinv1.2.1 hsame,
      sectionOut_eq_nil hinv2.2.1 (fun n => (hsame n).symm)⟩

/-- Witness for C9 at two concrete resource files: file 1 declares
`alpha` and `beta`, file 2 declares only `beta`. -/
theorem claim_C9_string_diff_witness :
    extractDecls ["<string name=\"alpha\">x</string>",
      "<string name=\"beta\">y</string>"] 0 [] =
        .ok [("alpha", 1), ("beta", 2)] ∧
    compareProgram "f1" "f2"
        ["<string name=\"alpha\">x</string>",
          "<string name=\"beta\">y</string>"]
        ["<string name=\"beta\">z</string>"] =
      .ok ([CmpLine.header "f1"] ++
        sectionOut [("alpha", 1), ("beta", 2)] [("beta", 1)] ++
        [CmpLine.header "f2"] ++
        sectionOut [("beta", 1)] [("alpha", 1), ("beta", 2)]) :=
  ⟨rfl,
    (claim_C9_string_diff "f1" "f2"
      ["<string name=\"alpha\">x</string>",
        "<string name=\"beta\">y</string>"]
      ["<string name=\"beta\">z</string>"]
      [("alpha", 1), ("beta", 2)] [("beta", 1)] rfl rfl).1⟩

end SBK
